import Mathlib

/-!
Verification development for the advanced PDF extraction module
(`pdf_extractor.py`).  The Python source is shallowly embedded:

* floating point coordinates, font sizes and scores are modelled as `ℚ`
  (the arithmetic in the source is small sums and comparisons of decimal
  literals; all theorems are about the embedded rational functions);
* Python lists become `List`, dicts with fixed keys become structures,
  `None`/fallible results become `Option`;
* `sorted(...)` becomes `List.mergeSort` with the corresponding key order.

Each definition is translated from the source function whose name it
carries (the original `snake_case` names are kept, minus leading
underscores).  Definitions whose doc string says so are instead written
from the specification's words, for comparison against the code.
-/

/-- `TextBlock` dataclass: a text block with full metadata
(`pdf_extractor.py`, lines 33-66). -/
structure TextBlock where
  x0 : ℚ
  y0 : ℚ
  x1 : ℚ
  y1 : ℚ
  text : String
  font_size : ℚ
  font_name : String
  font_weight : String
  color : ℤ
  is_bold : Bool
  is_italic : Bool
  deriving DecidableEq, Repr

/-- `TextBlock.width` property. -/
def TextBlock.width (b : TextBlock) : ℚ := b.x1 - b.x0

/-- `TextBlock.height` property. -/
def TextBlock.height (b : TextBlock) : ℚ := b.y1 - b.y0

/-- Reading-order key used by `detect_reading_order_zones`:
`sorted(text_blocks, key=lambda b: (b.y0, b.x0))`, i.e. the lexicographic
order on the pair `(y0, x0)`. -/
def readingLE (a b : TextBlock) : Bool :=
  decide (a.y0 < b.y0 ∨ (a.y0 = b.y0 ∧ a.x0 ≤ b.x0))

/-- `sorted(text_blocks, key=lambda b: (b.y0, b.x0))`. -/
def sortBlocks (blocks : List TextBlock) : List TextBlock :=
  blocks.mergeSort readingLE

/-- `SmartLayoutDetector._calculate_horizontal_overlap` (lines 210-221). -/
def calculate_horizontal_overlap (block1 block2 : TextBlock) : ℚ :=
  let overlap_start := max block1.x0 block2.x0
  let overlap_end := min block1.x1 block2.x1
  if overlap_end ≤ overlap_start then 0
  else
    let overlap := overlap_end - overlap_start
    let min_width := min block1.width block2.width
    if min_width > 0 then overlap / min_width else 0

/-- The merge test of `detect_reading_order_zones` (lines 190-198): the
next block joins the current zone when (a) the vertical gap to the zone's
last block is `< 15` and the horizontal overlap ratio is `> 0.5`, or (b)
the vertical gap is `< 30` and the left edges differ by less than 15 % of
the page width. -/
def sameZone (width : ℚ) (last_block block : TextBlock) : Bool :=
  let vertical_gap := block.y0 - last_block.y1
  let horizontal_overlap := calculate_horizontal_overlap last_block block
  (decide (vertical_gap < 15) && decide (horizontal_overlap > 0.5)) ||
    (decide (vertical_gap < 15 * 2) &&
      decide (|block.x0 - last_block.x0| < width * 0.15))

/-- The zone-growing loop of `detect_reading_order_zones` (lines 179-206).
`cur` is the current zone, most recently appended block first (the source
keeps it in order and reads `current_zone[-1]`; we keep it reversed and
read the head, reversing on flush). -/
def groupGo (width : ℚ) (cur : List TextBlock) (rest : List TextBlock) :
    List (List TextBlock) :=
  match rest with
  | [] => [cur.reverse]
  | b :: rest' =>
    match cur with
    | [] => groupGo width [b] rest'
    | last_block :: _ =>
      if sameZone width last_block b then groupGo width (b :: cur) rest'
      else cur.reverse :: groupGo width [b] rest'

/-- Partition of the sorted block list into consecutive zones
(`detect_reading_order_zones` before zone records are built). -/
def groupBlocks (width : ℚ) : List TextBlock → List (List TextBlock)
  | [] => []
  | b :: bs => groupGo width [b] bs

/-- `Zone` record as produced by `_create_zone_from_blocks` (lines
223-260); the constituent blocks are kept as `TextBlock`s (the source
re-serialises them to dicts with the same fields). -/
structure Zone where
  x0 : ℚ
  y0 : ℚ
  x1 : ℚ
  y1 : ℚ
  width : ℚ
  height : ℚ
  text : String
  blocks : List TextBlock
  avg_font_size : ℚ
  max_font_size : ℚ
  has_bold : Bool
  has_italic : Bool
  block_count : ℕ
  deriving DecidableEq, Repr

/-- `SmartLayoutDetector._create_zone_from_blocks` (lines 223-260).  The
source is only called on non-empty block lists; the `[]` case returns a
degenerate all-zero zone. -/
def create_zone_from_blocks : List TextBlock → Zone
  | [] =>
    { x0 := 0, y0 := 0, x1 := 0, y1 := 0, width := 0, height := 0,
      text := "", blocks := [], avg_font_size := 0, max_font_size := 0,
      has_bold := false, has_italic := false, block_count := 0 }
  | b :: bs =>
    let blocks := b :: bs
    let x0 := (bs.map (fun x => x.x0)).foldl min b.x0
    let y0 := (bs.map (fun x => x.y0)).foldl min b.y0
    let x1 := (bs.map (fun x => x.x1)).foldl max b.x1
    let y1 := (bs.map (fun x => x.y1)).foldl max b.y1
    let text_parts := blocks.map (fun x => x.text.trim)
    let text := "\n".intercalate (text_parts.filter (fun s => s ≠ ""))
    let font_sizes := blocks.map (fun x => x.font_size)
    { x0 := x0, y0 := y0, x1 := x1, y1 := y1,
      width := x1 - x0, height := y1 - y0,
      text := text, blocks := blocks,
      avg_font_size := font_sizes.sum / font_sizes.length,
      max_font_size := (bs.map (fun x => x.font_size)).foldl max b.font_size,
      has_bold := blocks.any (fun x => x.is_bold),
      has_italic := blocks.any (fun x => x.is_italic),
      block_count := blocks.length }

/-- `SmartLayoutDetector.detect_reading_order_zones` (lines 171-208). -/
def detect_reading_order_zones (width : ℚ) (text_blocks : List TextBlock) :
    List Zone :=
  (groupBlocks width (sortBlocks text_blocks)).map create_zone_from_blocks

/- Helper lemmas about the grouping loop. -/

lemma groupGo_join (width : ℚ) :
    ∀ (rest cur : List TextBlock),
      (groupGo width cur rest).flatten = cur.reverse ++ rest := by
  intro rest
  induction rest with
  | nil => intro cur; simp [groupGo]
  | cons b rest' ih =>
    intro cur
    cases cur with
    | nil => simpa [groupGo] using ih [b]
    | cons last_block t =>
      by_cases h : sameZone width last_block b = true
      · simp [groupGo, h, ih]
      · simp [groupGo, h, ih]

lemma groupGo_ne_nil (width : ℚ) :
    ∀ (rest cur : List TextBlock), cur ≠ [] →
      ∀ g ∈ groupGo width cur rest, g ≠ [] := by
  intro rest
  induction rest with
  | nil =>
    intro cur hcur g hg
    simp [groupGo] at hg
    subst hg
    simpa using hcur
  | cons b rest' ih =>
    intro cur hcur g hg
    cases cur with
    | nil => exact absurd rfl hcur
    | cons last_block t =>
      by_cases h : sameZone width last_block b = true
      · rw [groupGo, if_pos h] at hg
        exact ih (b :: last_block :: t) (by simp) g hg
      · rw [groupGo, if_neg h] at hg
        rcases List.mem_cons.mp hg with h1 | h2
        · subst h1; simp
        · exact ih [b] (by simp) g h2

lemma groupBlocks_join (width : ℚ) (l : List TextBlock) :
    (groupBlocks width l).flatten = l := by
  cases l with
  | nil => simp [groupBlocks]
  | cons b bs => simpa [groupBlocks] using groupGo_join width bs [b]

lemma groupBlocks_ne_nil (width : ℚ) (l : List TextBlock) :
    ∀ g ∈ groupBlocks width l, g ≠ [] := by
  cases l with
  | nil => simp [groupBlocks]
  | cons b bs => exact groupGo_ne_nil width bs [b] (by simp)

lemma foldl_min_le (l : List ℚ) :
    ∀ a : ℚ, l.foldl min a ≤ a ∧ ∀ x ∈ l, l.foldl min a ≤ x := by
  induction l with
  | nil => simp
  | cons y ys ih =>
    intro a
    have h1 : (y :: ys).foldl min a = ys.foldl min (min a y) := rfl
    refine ⟨?_, ?_⟩
    · rw [h1]
      exact le_trans (ih (min a y)).1 (min_le_left _ _)
    · intro x hx
      rcases List.mem_cons.mp hx with h2 | h2
      · subst h2
        rw [h1]
        exact le_trans (ih (min a x)).1 (min_le_right _ _)
      · rw [h1]
        exact (ih (min a y)).2 x h2

lemma le_foldl_max (l : List ℚ) :
    ∀ a : ℚ, a ≤ l.foldl max a ∧ ∀ x ∈ l, x ≤ l.foldl max a := by
  induction l with
  | nil => simp
  | cons y ys ih =>
    intro a
    have h1 : (y :: ys).foldl max a = ys.foldl max (max a y) := rfl
    refine ⟨?_, ?_⟩
    · rw [h1]
      exact le_trans (le_max_left _ _) (ih (max a y)).1
    · intro x hx
      rcases List.mem_cons.mp hx with h2 | h2
      · subst h2
        rw [h1]
        exact le_trans (le_max_right _ _) (ih (max a x)).1
      · rw [h1]
        exact (ih (max a y)).2 x h2

lemma create_zone_bbox {bs : List TextBlock} (hbs : bs ≠ []) :
    ∀ b ∈ bs,
      (create_zone_from_blocks bs).x0 ≤ b.x0 ∧
      (create_zone_from_blocks bs).y0 ≤ b.y0 ∧
      b.x1 ≤ (create_zone_from_blocks bs).x1 ∧
      b.y1 ≤ (create_zone_from_blocks bs).y1 := by
  cases bs with
  | nil => exact absurd rfl hbs
  | cons a t =>
    intro b hb
    rcases List.mem_cons.mp hb with h1 | h2
    · subst h1
      exact ⟨(foldl_min_le _ _).1, (foldl_min_le _ _).1,
        (le_foldl_max _ _).1, (le_foldl_max _ _).1⟩
    · exact ⟨(foldl_min_le _ _).2 _ (List.mem_map_of_mem _ h2),
        (foldl_min_le _ _).2 _ (List.mem_map_of_mem _ h2),
        (le_foldl_max _ _).2 _ (List.mem_map_of_mem _ h2),
        (le_foldl_max _ _).2 _ (List.mem_map_of_mem _ h2)⟩

lemma create_zone_blocks (bs : List TextBlock) :
    (create_zone_from_blocks bs).blocks = bs := by
  cases bs <;> rfl

/-- Claim C4: reading-order zone segmentation places each input block in
exactly one output zone (the concatenation of the zones' block lists is
the input sorted by `(y0, x0)`, hence a permutation of the input), zones
are emitted in reading order, each zone's bounding box contains the
bounding boxes of all its blocks (so the union of zone boxes covers the
union of block boxes), and the empty input yields the empty zone list. -/
theorem reading_order_zones_partition (width : ℚ) (blocks : List TextBlock) :
    detect_reading_order_zones width [] = [] ∧
    ((detect_reading_order_zones width blocks).map Zone.blocks).flatten =
      sortBlocks blocks ∧
    ((detect_reading_order_zones width blocks).map Zone.blocks).flatten.Perm
      blocks ∧
    ∀ z ∈ detect_reading_order_zones width blocks, ∀ b ∈ z.blocks,
      z.x0 ≤ b.x0 ∧ z.y0 ≤ b.y0 ∧ b.x1 ≤ z.x1 ∧ b.y1 ≤ z.y1 := by
  have hjoin :
      ((detect_reading_order_zones width blocks).map Zone.blocks).flatten =
        sortBlocks blocks := by
    unfold detect_reading_order_zones
    rw [List.map_map]
    have : (Zone.blocks ∘ create_zone_from_blocks) = id := by
      funext bs; exact create_zone_blocks bs
    rw [this, List.map_id, groupBlocks_join]
  refine ⟨?_, hjoin, ?_, ?_⟩
  · simp [detect_reading_order_zones, sortBlocks, groupBlocks,
      List.mergeSort_nil]
  · rw [hjoin]
    exact List.mergeSort_perm blocks readingLE
  · intro z hz b hb
    unfold detect_reading_order_zones at hz
    rcases List.mem_map.mp hz with ⟨g, hg, hzg⟩
    have hgne : g ≠ [] := groupBlocks_ne_nil width _ g hg
    have := create_zone_bbox hgne b (by rwa [← create_zone_blocks g, hzg])
    rw [← hzg]
    exact this

/-- First block of the C4 witness page. -/
def upperBlock : TextBlock :=
  { x0 := 0, y0 := 0, x1 := 50, y1 := 10, text := "a",
    font_size := 12, font_name := "f", font_weight := "normal",
    color := 0, is_bold := false, is_italic := false }

/-- Second block of the C4 witness page, 60 units below the first. -/
def lowerBlock : TextBlock :=
  { x0 := 0, y0 := 70, x1 := 50, y1 := 80, text := "b",
    font_size := 12, font_name := "f", font_weight := "normal",
    color := 0, is_bold := false, is_italic := false }

/-- Claim C4 witness: the theorem applied to a concrete two-block page
(two blocks separated by a vertical gap of 60 units, which yields two
zones), instantiated at the first zone and its block. -/
theorem reading_order_zones_partition_witness :
    (detect_reading_order_zones 100 [] = []) ∧
    ((create_zone_from_blocks [upperBlock]).x0 ≤ upperBlock.x0 ∧
     (create_zone_from_blocks [upperBlock]).y0 ≤ upperBlock.y0 ∧
     upperBlock.x1 ≤ (create_zone_from_blocks [upperBlock]).x1 ∧
     upperBlock.y1 ≤ (create_zone_from_blocks [upperBlock]).y1) := by
  have hs : sortBlocks [upperBlock, lowerBlock] =
      [upperBlock, lowerBlock] := by
    apply List.mergeSort_of_sorted
    simp [readingLE, upperBlock, lowerBlock]
  have hz : sameZone 100 upperBlock lowerBlock = false := by
    simp [sameZone, calculate_horizontal_overlap, upperBlock, lowerBlock,
      TextBlock.width]
    norm_num
  have hd : detect_reading_order_zones 100 [upperBlock, lowerBlock] =
      [create_zone_from_blocks [upperBlock],
       create_zone_from_blocks [lowerBlock]] := by
    rw [detect_reading_order_zones, hs]
    show ((groupGo 100 [upperBlock] [lowerBlock]).map
      create_zone_from_blocks) = _
    rw [groupGo, if_neg (by rw [hz]; exact Bool.false_ne_true)]
    rfl
  refine ⟨(reading_order_zones_partition 100 []).1, ?_⟩
  exact (reading_order_zones_partition 100 [upperBlock, lowerBlock]).2.2.2
    (create_zone_from_blocks [upperBlock]) (by rw [hd]; simp)
    upperBlock (by rw [create_zone_blocks]; simp)

/-! ## 1-D clustering (`SmartLayoutDetector._cluster_positions`, C5) -/

/-- Mean of a list of rationals (`sum(cluster) / len(cluster)`). -/
def clusterMean (l : List ℚ) : ℚ := l.sum / l.length

/-- The clustering loop of `_cluster_positions` (lines 113-132).  `cur` is
the current cluster, most recently appended point first (the source keeps
it in order and compares against `current_cluster[-1]`; we keep it
reversed and compare against the head, reversing on flush). -/
def clusterGo (tolerance : ℚ) (cur : List ℚ) (rest : List ℚ) : List ℚ :=
  match rest with
  | [] => [clusterMean cur.reverse]
  | pos :: rest' =>
    match cur with
    | [] => clusterGo tolerance [pos] rest'
    | last :: _ =>
      if pos - last ≤ tolerance then clusterGo tolerance (pos :: cur) rest'
      else clusterMean cur.reverse :: clusterGo tolerance [pos] rest'

/-- `sorted(positions)` for rationals. -/
def sortRat (positions : List ℚ) : List ℚ :=
  positions.mergeSort (fun a b => decide (a ≤ b))

/-- `SmartLayoutDetector._cluster_positions` (lines 113-132), with the
source's default `tolerance = 5` passed explicitly by
`detect_grid_system`. -/
def cluster_positions (positions : List ℚ) (tolerance : ℚ) : List ℚ :=
  match sortRat positions with
  | [] => []
  | p :: rest => clusterGo tolerance [p] rest

/-- `SmartLayoutDetector.detect_grid_system` (lines 94-111), returning
`(columns, rows, grid_detected)`. -/
def detect_grid_system (text_blocks : List TextBlock) :
    List ℚ × List ℚ × Bool :=
  match text_blocks with
  | [] => ([], [], false)
  | _ =>
    let x_clusters := cluster_positions (text_blocks.map (fun b => b.x0)) 5
    let y_clusters := cluster_positions (text_blocks.map (fun b => b.y0)) 5
    (x_clusters, y_clusters,
      decide (x_clusters.length > 1) || decide (y_clusters.length > 3))

/-- Splitting of a (sorted) list into maximal runs in which each point
lies within `tolerance` of the *previous* point.  This is the amended
description of the clustering rule, written independently of
`cluster_positions` (right-recursive chunking instead of the source's
left-to-right accumulator) so that the two can be compared. -/
def chunkByGap (tolerance : ℚ) : List ℚ → List (List ℚ)
  | [] => []
  | p :: rest =>
    match chunkByGap tolerance rest with
    | [] => [[p]]
    | [] :: gs => [p] :: gs
    | (q :: g) :: gs =>
      if q - p ≤ tolerance then (p :: q :: g) :: gs
      else [p] :: (q :: g) :: gs

/-- Modelled from the claim's words: 1-D clustering in which a point is
merged into the current cluster exactly when it lies within `tolerance`
of the *running cluster average*, and each reported value is the cluster
mean.  Used only to compare the specification's description of
`_cluster_positions` with the code. -/
def clusterByRunningAverage (tolerance : ℚ) (cur : List ℚ)
    (rest : List ℚ) : List ℚ :=
  match rest with
  | [] => [clusterMean cur.reverse]
  | pos :: rest' =>
    match cur with
    | [] => clusterByRunningAverage tolerance [pos] rest'
    | _ :: _ =>
      if |pos - clusterMean cur.reverse| ≤ tolerance then
        clusterByRunningAverage tolerance (pos :: cur) rest'
      else
        clusterMean cur.reverse ::
          clusterByRunningAverage tolerance [pos] rest'

/-- Modelled from the claim's words (top level of
`clusterByRunningAverage`). -/
def cluster_positions_spec (positions : List ℚ) (tolerance : ℚ) : List ℚ :=
  match sortRat positions with
  | [] => []
  | p :: rest => clusterByRunningAverage tolerance [p] rest

/-- How `clusterGo` consumes the chunks of the remaining input: the first
chunk is merged into the current cluster when its head continues the runs
(within tolerance of the current last point), otherwise the current
cluster is flushed. -/
def mergeHead (tolerance last : ℚ) (curTail : List ℚ) :
    List (List ℚ) → List ℚ
  | [] => [clusterMean (last :: curTail).reverse]
  | [] :: gs => clusterMean (last :: curTail).reverse :: gs.map clusterMean
  | (q :: g) :: gs =>
    if q - last ≤ tolerance then
      clusterMean ((last :: curTail).reverse ++ (q :: g)) ::
        gs.map clusterMean
    else
      clusterMean (last :: curTail).reverse ::
        ((q :: g) :: gs).map clusterMean

lemma chunkByGap_ne_nil (tolerance : ℚ) :
    ∀ l : List ℚ, ∀ g ∈ chunkByGap tolerance l, g ≠ [] := by
  intro l
  induction l with
  | nil => simp [chunkByGap]
  | cons p rest ih =>
    intro g hg
    rw [chunkByGap] at hg
    split at hg
    · simp at hg
      simp [hg]
    · next gs hc =>
      rcases List.mem_cons.mp hg with h1 | h2
      · simp [h1]
      · exact ih g (by rw [hc]; exact List.mem_cons_of_mem _ h2)
    · next q g0t gs hc =>
      split at hg
      · rcases List.mem_cons.mp hg with h1 | h2
        · simp [h1]
        · exact ih g (by rw [hc]; exact List.mem_cons_of_mem _ h2)
      · rcases List.mem_cons.mp hg with h1 | h2
        · simp [h1]
        · exact ih g (by rw [hc]; exact h2)

lemma chunkByGap_flatten (tolerance : ℚ) :
    ∀ l : List ℚ, (chunkByGap tolerance l).flatten = l := by
  intro l
  induction l with
  | nil => simp [chunkByGap]
  | cons p rest ih =>
    rw [chunkByGap]
    split
    · next hc =>
      rw [hc] at ih
      simp at ih
      simp [← ih]
    · next gs hc =>
      rw [hc] at ih
      simpa using ih
    · next q g0t gs hc =>
      rw [hc] at ih
      split
      · simpa using ih
      · simpa using ih

lemma clusterGo_eq_mergeHead (tolerance : ℚ) :
    ∀ (rest : List ℚ) (last : ℚ) (curTail : List ℚ),
      clusterGo tolerance (last :: curTail) rest =
        mergeHead tolerance last curTail (chunkByGap tolerance rest) := by
  intro rest
  induction rest with
  | nil => intro last curTail; simp [clusterGo, chunkByGap, mergeHead]
  | cons p rest' ih =>
    intro last curTail
    rw [clusterGo, chunkByGap]
    by_cases hp : p - last ≤ tolerance
    · rw [if_pos hp, ih p (last :: curTail)]
      rcases hc : chunkByGap tolerance rest' with _ | ⟨g0, gs⟩
      · simp [hc, mergeHead, hp, List.reverse_cons]
      · cases g0 with
        | nil =>
          have := chunkByGap_ne_nil tolerance rest' [] (by rw [hc]; simp)
          exact absurd rfl this
        | cons q g0t =>
          by_cases hq : q - p ≤ tolerance
          · simp [hc, mergeHead, hp, hq, List.reverse_cons]
          · simp [hc, mergeHead, hp, hq, List.reverse_cons]
    · rw [if_neg hp, ih p []]
      rcases hc : chunkByGap tolerance rest' with _ | ⟨g0, gs⟩
      · simp [hc, mergeHead, hp]
      · cases g0 with
        | nil =>
          have := chunkByGap_ne_nil tolerance rest' [] (by rw [hc]; simp)
          exact absurd rfl this
        | cons q g0t =>
          by_cases hq : q - p ≤ tolerance
          · simp [hc, mergeHead, hp, hq]
          · simp [hc, mergeHead, hp, hq]

lemma chunkByGap_chain (tolerance : ℚ) :
    ∀ l : List ℚ, ∀ g ∈ chunkByGap tolerance l,
      g.Chain' (fun a b => b - a ≤ tolerance) := by
  intro l
  induction l with
  | nil => simp [chunkByGap]
  | cons p rest ih =>
    intro g hg
    rw [chunkByGap] at hg
    split at hg
    · simp at hg
      simp [hg]
    · next gs hc =>
      rcases List.mem_cons.mp hg with h1 | h2
      · simp [h1]
      · exact ih g (by rw [hc]; exact List.mem_cons_of_mem _ h2)
    · next q g0t gs hc =>
      split at hg
      · next ht =>
        rcases List.mem_cons.mp hg with h1 | h2
        · subst h1
          have hq : (q :: g0t).Chain' (fun a b => b - a ≤ tolerance) :=
            ih (q :: g0t) (by rw [hc]; exact List.mem_cons_self _ _)
          exact List.Chain'.cons ht hq
        · exact ih g (by rw [hc]; exact List.mem_cons_of_mem _ h2)
      · rcases List.mem_cons.mp hg with h1 | h2
        · simp [h1]
        · exact ih g (by rw [hc]; exact h2)

/-- The gap between two consecutive clusters: the first point of the later
cluster is more than `tolerance` above the last point of the earlier. -/
def clusterBoundary (tolerance : ℚ) (g1 g2 : List ℚ) : Prop :=
  ∀ a ∈ g1.getLast?, ∀ b ∈ g2.head?, tolerance < b - a

lemma chunkByGap_boundaries (tolerance : ℚ) :
    ∀ l : List ℚ,
      (chunkByGap tolerance l).Chain' (clusterBoundary tolerance) := by
  intro l
  induction l with
  | nil => simp [chunkByGap]
  | cons p rest ih =>
    rw [chunkByGap]
    split
    · simp
    · next gs hc =>
      have := chunkByGap_ne_nil tolerance rest [] (by rw [hc]; simp)
      exact absurd rfl this
    · next q g0t gs hc =>
      rw [hc] at ih
      split
      · next ht =>
        cases gs with
        | nil => simp
        | cons g2 gs' =>
          rw [List.chain'_cons] at ih ⊢
          refine ⟨?_, ih.2⟩
          intro a ha b hb
          apply ih.1 a _ b hb
          rwa [List.getLast?_cons_cons] at ha
      · next ht =>
        refine List.Chain'.cons ?_ ih
        intro a ha b hb
        simp at ha hb
        subst ha
        subst hb
        linarith [not_le.mp ht]

/-- Claim C5, amended part: `_cluster_positions` splits the sorted input
into maximal runs in which each point lies within the tolerance of the
cluster's *last* (most recently added) member — not of the running
average — and reports the mean of each run; consecutive points inside one
cluster differ by at most the tolerance, and consecutive clusters are
separated by a gap exceeding it. -/
theorem cluster_positions_last_member_rule (tolerance : ℚ)
    (positions : List ℚ) (g : List ℚ) :
    cluster_positions positions tolerance =
      (chunkByGap tolerance (sortRat positions)).map clusterMean ∧
    (chunkByGap tolerance (sortRat positions)).flatten = sortRat positions ∧
    (g ∈ chunkByGap tolerance (sortRat positions) →
      g.Chain' (fun a b => b - a ≤ tolerance)) ∧
    (chunkByGap tolerance (sortRat positions)).Chain'
      (clusterBoundary tolerance) := by
  refine ⟨?_, chunkByGap_flatten tolerance _,
    fun hg => chunkByGap_chain tolerance _ g hg,
    chunkByGap_boundaries tolerance _⟩
  rw [cluster_positions]
  split
  · next hs => rw [hs, chunkByGap]; rfl
  · next p rest hs =>
    rw [hs, clusterGo_eq_mergeHead, chunkByGap]
    rcases hc : chunkByGap tolerance rest with _ | ⟨g0, gs⟩
    · simp [mergeHead, clusterMean]
    · cases g0 with
      | nil =>
        have := chunkByGap_ne_nil tolerance rest [] (by rw [hc]; simp)
        exact absurd rfl this
      | cons q g0t =>
        by_cases hq : q - p ≤ tolerance
        · simp [mergeHead, hq]
        · simp [mergeHead, hq]

/-- Claim C5 witness: the amended theorem evaluated on the concrete input
`[0, 4, 8, 12]` (one cluster, mean 6). -/
theorem cluster_positions_last_member_rule_witness :
    cluster_positions [0, 4, 8, 12] 5 =
      (chunkByGap 5 (sortRat [0, 4, 8, 12])).map clusterMean ∧
    List.Chain' (fun a b => b - a ≤ (5 : ℚ)) [0, 4, 8, 12] := by
  have hs : sortRat [0, 4, 8, 12] = [0, 4, 8, 12] :=
    List.mergeSort_of_sorted (by decide)
  have hc : chunkByGap 5 (sortRat [0, 4, 8, 12]) = [[0, 4, 8, 12]] := by
    rw [hs]
    norm_num [chunkByGap]
  refine ⟨(cluster_positions_last_member_rule 5 [0, 4, 8, 12] []).1, ?_⟩
  exact (cluster_positions_last_member_rule 5 [0, 4, 8, 12]
    [0, 4, 8, 12]).2.2.1 (by rw [hc]; simp)

/-- Claim C5 counterexample: on the sorted input `[0, 4, 8, 12]` the code
(merge when within 5 of the cluster's last member) produces the single
cluster value `[6]`, while merging within tolerance 5 of the *running
cluster average*, as the claim states, would produce `[2, 10]`. -/
theorem cluster_positions_counterexample :
    cluster_positions [0, 4, 8, 12] 5 = [6] ∧
    cluster_positions_spec [0, 4, 8, 12] 5 = [2, 10] ∧
    cluster_positions [0, 4, 8, 12] 5 ≠
      cluster_positions_spec [0, 4, 8, 12] 5 := by
  have hs : sortRat [0, 4, 8, 12] = [0, 4, 8, 12] :=
    List.mergeSort_of_sorted (by decide)
  have h1 : cluster_positions [0, 4, 8, 12] 5 = [6] := by
    norm_num [cluster_positions, hs, clusterGo, clusterMean]
  have h2 : cluster_positions_spec [0, 4, 8, 12] 5 = [2, 10] := by
    norm_num [cluster_positions_spec, hs, clusterByRunningAverage,
      clusterMean]
  refine ⟨h1, h2, by rw [h1, h2]; simp⟩

/-! ## Content classifier (`IntelligentContentAnalyzer`, C1 and C6) -/

/-- `IntelligentContentAnalyzer.LIST_MARKERS` (lines 287-288); every
marker in the source is a single character. -/
def LIST_MARKERS : List Char :=
  ['•', '○', '●', '■', '□', '▪', '▫', '►', '▸', '⦿', '⦾',
   '-', '*', '→', '⇒', '»', '›', '✓', '✗']

/-- `IntelligentContentAnalyzer.TABLE_INDICATORS` (lines 290-291). -/
def TABLE_INDICATORS : List String :=
  ["total", "média", "soma", "%", "valor", "quantidade",
   "descrição", "item", "código", "nome", "data"]

/-- Whether the first list is an initial segment of the second. -/
def leadsWith : List Char → List Char → Bool
  | [], _ => true
  | _ :: _, [] => false
  | p :: ps, c :: cs => decide (p = c) && leadsWith ps cs

/-- Occurrence of `needle` as a contiguous sublist of `haystack`:
Python's `needle in haystack` substring test. -/
def hasSub (haystack needle : List Char) : Bool :=
  match haystack with
  | [] => needle.isEmpty
  | _ :: hs => leadsWith needle haystack || hasSub hs needle

/-- Python's `pat in s` substring test. -/
def strContains (s pat : String) : Bool := hasSub s.data pat.data

/-- Number of maximal non-whitespace runs; `inWord` says whether the scan
is currently inside a word. -/
def countWordsAux : List Char → Bool → ℕ
  | [], _ => 0
  | c :: cs, inWord =>
    if c.isWhitespace then countWordsAux cs false
    else (if inWord then 0 else 1) + countWordsAux cs true

/-- `len(text.split())`: number of maximal non-empty whitespace-separated
words (ASCII whitespace, adequate for the embedded texts). -/
def pyWordCount (s : String) : ℕ := countWordsAux s.data false

/-- `len(text.split('\n'))`: one more than the number of newline
characters. -/
def pyLineCount (s : String) : ℕ :=
  (s.data.filter (fun c => c = '\n')).length + 1

/-- Continuation of `re.match(r'^\d+\.?\s', text)` after the first digit:
more digits, an optional dot, then one whitespace character. -/
def swnTail : List Char → Bool
  | [] => false
  | c :: cs =>
    if c.isDigit then swnTail cs
    else if c = '.' then
      match cs with
      | [] => false
      | d :: _ => d.isWhitespace
    else c.isWhitespace

/-- `bool(re.match(r'^\d+\.?\s', text))`. -/
def startsWithNumberStr (s : String) : Bool :=
  match s.data with
  | [] => false
  | c :: cs => c.isDigit && swnTail cs

/-- Python `str.isupper()`: at least one cased character and no lowercase
cased character (ASCII model). -/
def pyIsUpper (s : String) : Bool :=
  s.data.any (fun c => c.isUpper) && s.data.all (fun c => !c.isLower)

/-- Feature record built by
`IntelligentContentAnalyzer._extract_features` (lines 325-362).
`aspect` is the source's `aspect_ratio` and `upperFrac` the source's
`uppercase_ratio` (renamed). -/
structure Features where
  width : ℚ
  height : ℚ
  area : ℚ
  aspect : ℚ
  text_length : ℕ
  word_count : ℕ
  line_count : ℕ
  avg_line_length : ℚ
  avg_font_size : ℚ
  max_font_size : ℚ
  has_bold : Bool
  has_italic : Bool
  block_count : ℕ
  has_numbers : Bool
  has_uppercase : Bool
  upperFrac : ℚ
  has_list_markers : Bool
  has_table_words : Bool
  is_short : Bool
  is_long : Bool
  starts_with_number : Bool
  is_all_caps : Bool
  has_colon : Bool
  has_dash : Bool
  deriving DecidableEq, Repr

/-- `IntelligentContentAnalyzer._extract_features` (lines 325-362).  The
`zone.get(...)` defaults of the source only apply to dicts missing keys;
zones built by `_create_zone_from_blocks` always carry them. -/
def extract_features (zone : Zone) : Features :=
  let text := zone.text
  let lowered := text.data.map Char.toLower
  { width := zone.width
    height := zone.height
    area := zone.width * zone.height
    aspect := if zone.height > 0 then zone.width / zone.height else 0
    text_length := text.data.length
    word_count := pyWordCount text
    line_count := pyLineCount text
    avg_line_length :=
      (text.data.length : ℚ) / ((max (pyLineCount text) 1 : ℕ) : ℚ)
    avg_font_size := zone.avg_font_size
    max_font_size := zone.max_font_size
    has_bold := zone.has_bold
    has_italic := zone.has_italic
    block_count := zone.block_count
    has_numbers := text.data.any (fun c => c.isDigit)
    has_uppercase :=
      text.data.any (fun c => decide ('A' ≤ c) && decide (c ≤ 'Z'))
    upperFrac :=
      ((text.data.filter (fun c => c.isUpper)).length : ℚ) /
        ((max text.data.length 1 : ℕ) : ℚ)
    has_list_markers :=
      LIST_MARKERS.any (fun m => text.data.any (fun c => c = m))
    has_table_words := TABLE_INDICATORS.any (fun w => hasSub lowered w.data)
    is_short := decide (text.data.length < 100)
    is_long := decide (text.data.length > 500)
    starts_with_number := startsWithNumberStr text
    is_all_caps := pyIsUpper text && decide (text.data.length > 3)
    has_colon := text.data.any (fun c => c = ':')
    has_dash := text.data.any (fun c => c = '—') ||
      text.data.any (fun c => c = '–') }

/-- `max(0, min(1, score))`: the clamp applied by every scoring
function. -/
def clamp01 (score : ℚ) : ℚ := max 0 (min 1 score)

/-- `IntelligentContentAnalyzer._score_title` (lines 364-388). -/
def score_title (f : Features) : ℚ :=
  clamp01
    ((if f.max_font_size ≥ 24 then 0.4
      else if f.max_font_size ≥ 20 then 0.3
      else if f.max_font_size ≥ 16 then 0.2 else 0) +
     (if f.word_count ≤ 10 then 0.2 else 0) +
     (if f.has_bold then 0.15 else 0) +
     (if f.is_all_caps then 0.15 else 0) +
     (if f.height > 40 then 0.1 else 0) -
     (if f.word_count > 20 then 0.3 else 0) -
     (if f.line_count > 2 then 0.2 else 0))

/-- `IntelligentContentAnalyzer._score_subtitle` (lines 390-401). -/
def score_subtitle (f : Features) : ℚ :=
  clamp01
    ((if 14 ≤ f.max_font_size ∧ f.max_font_size < 20 then 0.3 else 0) +
     (if f.has_bold then 0.2 else 0) +
     (if 3 ≤ f.word_count ∧ f.word_count ≤ 15 then 0.2 else 0) +
     (if f.starts_with_number then 0.15 else 0) +
     (if f.upperFrac > 0.3 then 0.15 else 0))

/-- `IntelligentContentAnalyzer._score_header` (lines 403-414). -/
def score_header (f : Features) : ℚ :=
  clamp01
    ((if f.has_bold then 0.3 else 0) +
     (if f.starts_with_number then 0.2 else 0) +
     (if 13 ≤ f.max_font_size ∧ f.max_font_size ≤ 18 then 0.2 else 0) +
     (if f.word_count ≤ 12 then 0.15 else 0) +
     (if f.has_colon then 0.15 else 0))

/-- `IntelligentContentAnalyzer._score_paragraph` (lines 416-426);
`0.3` is the base score. -/
def score_paragraph (f : Features) : ℚ :=
  clamp01
    (0.3 +
     (if f.word_count ≥ 15 then 0.2 else 0) +
     (if f.line_count ≥ 2 then 0.15 else 0) +
     (if 10 ≤ f.avg_font_size ∧ f.avg_font_size ≤ 13 then 0.2 else 0) +
     (if ¬f.has_bold ∧ ¬f.is_all_caps then 0.15 else 0))

/-- `IntelligentContentAnalyzer._score_list` (lines 428-438). -/
def score_list (f : Features) : ℚ :=
  clamp01
    ((if f.has_list_markers then 0.5 else 0) +
     (if f.line_count ≥ 3 then 0.2 else 0) +
     (if f.starts_with_number then 0.15 else 0) +
     (if 50 < f.avg_line_length ∧ f.avg_line_length < 200 then 0.15 else 0))

/-- `IntelligentContentAnalyzer._score_table` (lines 440-454), the
`table_like` score. -/
def score_table (f : Features) : ℚ :=
  clamp01
    ((if f.has_table_words then 0.25 else 0) +
     (if f.block_count ≥ 6 then 0.25 else 0) +
     (if f.has_numbers then 0.15 else 0) +
     (if 0.5 < f.aspect ∧ f.aspect < 2 then 0.15 else 0) +
     (if f.line_count ≥ 4 then 0.1 else 0) +
     (if f.block_count ≥ 10 then 0.1 else 0))

/-- `IntelligentContentAnalyzer._score_card` (lines 456-472). -/
def score_card (f : Features) : ℚ :=
  clamp01
    ((if 0.7 < f.aspect ∧ f.aspect < 1.5 then 0.3 else 0) +
     (if 5000 < f.area ∧ f.area < 100000 then 0.2 else 0) +
     (if f.is_short then 0.2 else 0) +
     (if f.has_bold then 0.15 else 0) +
     (if f.word_count ≤ 50 then 0.15 else 0))

/-- `IntelligentContentAnalyzer._score_caption` (lines 474-485).  The
source's final test `'figura' in f or 'tabela' in f or 'fonte:' in f`
checks membership among the *keys of the feature dict* (not the text), so
it is always false; it is therefore omitted, contributing 0. -/
def score_caption (f : Features) : ℚ :=
  clamp01
    ((if f.avg_font_size < 10 then 0.3 else 0) +
     (if f.is_short then 0.2 else 0) +
     (if f.has_italic then 0.2 else 0) +
     (if f.word_count ≤ 20 then 0.15 else 0))

/-- `IntelligentContentAnalyzer._score_footnote` (lines 487-497). -/
def score_footnote (f : Features) : ℚ :=
  clamp01
    ((if f.avg_font_size < 9 then 0.4 else 0) +
     (if f.starts_with_number then 0.2 else 0) +
     (if f.is_short then 0.2 else 0) +
     (if f.word_count ≤ 30 then 0.2 else 0))

/-- The `scores` dict of `classify_zone_advanced` (lines 303-313), as the
(insertion-ordered) association list it is in Python 3.7+. -/
def scoresList (f : Features) : List (String × ℚ) :=
  [("title", score_title f),
   ("subtitle", score_subtitle f),
   ("header", score_header f),
   ("paragraph", score_paragraph f),
   ("list", score_list f),
   ("table_like", score_table f),
   ("card", score_card f),
   ("caption", score_caption f),
   ("footnote", score_footnote f)]

/-- Python's `max(items, key=lambda x: x[1])`: left fold that replaces
the current best only on a strictly greater key, so the first maximal
item wins. -/
def python_max (best : String × ℚ) (rest : List (String × ℚ)) :
    String × ℚ :=
  rest.foldl (fun b p => if p.2 > b.2 then p else b) best

/-- Result dict of `classify_zone_advanced` (lines 318-323). -/
structure Classification where
  type : String
  confidence : ℚ
  scores : List (String × ℚ)
  features : Features
  deriving DecidableEq, Repr

/-- The scoring-and-selection core of
`IntelligentContentAnalyzer.classify_zone_advanced` (lines 302-323),
as a function of the feature vector. -/
def classify_features (f : Features) : Classification :=
  match scoresList f with
  | [] => { type := "", confidence := 0, scores := [], features := f }
  | s0 :: rest =>
    let best := python_max s0 rest
    { type := best.1, confidence := best.2,
      scores := scoresList f, features := f }

/-- `IntelligentContentAnalyzer.classify_zone_advanced` (lines 293-323). -/
def classify_zone_advanced (zone : Zone) : Classification :=
  classify_features (extract_features zone)

/-- First maximum of `x :: l` by score, computed right-to-left: an
element is replaced only by a *strictly* greater one further right, so
on ties the earlier element wins.  This is the reference formulation of
the first-maximum tie-break, independent of `python_max`. -/
def first_max : (String × ℚ) → List (String × ℚ) → String × ℚ
  | x, [] => x
  | x, y :: ys =>
    let m := first_max y ys
    if m.2 > x.2 then m else x

/-- The amended tie-break: maximal score with ties broken by the
evaluation order title, subtitle, header, paragraph, list, table_like,
card, caption, footnote (the insertion order of the score dict). -/
def amended_select (f : Features) : String × ℚ :=
  match scoresList f with
  | [] => ("", 0)
  | s0 :: rest => first_max s0 rest

/-- Modelled from the claim's words: selection by maximal score with ties
broken by the priority order title > header > subtitle > list >
table_like > card > caption > footnote > paragraph.  Used only to compare
the claimed tie-break with the code's. -/
def claim_select (f : Features) : String × ℚ :=
  first_max ("title", score_title f)
    [("header", score_header f),
     ("subtitle", score_subtitle f),
     ("list", score_list f),
     ("table_like", score_table f),
     ("card", score_card f),
     ("caption", score_caption f),
     ("footnote", score_footnote f),
     ("paragraph", score_paragraph f)]

/-- Left-associated maximum of the nine scores, in evaluation order. -/
def maxNine (f : Features) : ℚ :=
  max (max (max (max (max (max (max (max
    (score_title f) (score_subtitle f)) (score_header f))
    (score_paragraph f)) (score_list f)) (score_table f))
    (score_card f)) (score_caption f)) (score_footnote f)

lemma snd_python_max :
    ∀ (rest : List (String × ℚ)) (best : String × ℚ),
      (python_max best rest).2 =
        rest.foldl (fun m p => max m p.2) best.2 := by
  intro rest
  induction rest with
  | nil => intro best; rfl
  | cons y ys ih =>
    intro best
    show (python_max (if y.2 > best.2 then y else best) ys).2 =
      ys.foldl (fun m p => max m p.2) (max best.2 y.2)
    rw [ih]
    by_cases h : y.2 > best.2
    · rw [if_pos h, max_eq_right (le_of_lt h)]
    · rw [if_neg h, max_eq_left (not_lt.mp h)]

lemma le_python_max_snd :
    ∀ (rest : List (String × ℚ)) (best : String × ℚ),
      best.2 ≤ (python_max best rest).2 := by
  intro rest
  induction rest with
  | nil => intro best; exact le_refl _
  | cons y ys ih =>
    intro best
    show best.2 ≤ (python_max (if y.2 > best.2 then y else best) ys).2
    refine le_trans ?_ (ih _)
    by_cases h : y.2 > best.2
    · rw [if_pos h]; exact le_of_lt h
    · rw [if_neg h]

lemma python_max_shift :
    ∀ (ys : List (String × ℚ)) (x y : String × ℚ), y.2 ≤ x.2 →
      python_max x ys =
        if (python_max y ys).2 > x.2 then python_max y ys else x := by
  intro ys
  induction ys with
  | nil =>
    intro x y h
    simpa [python_max] using (if_neg (not_lt.mpr h)).symm
  | cons z ys ih =>
    intro x y h
    by_cases hzx : z.2 > x.2
    · have hzy : z.2 > y.2 := lt_of_le_of_lt h hzx
      show python_max (if z.2 > x.2 then z else x) ys = _
      rw [if_pos hzx]
      have hm : (python_max z ys).2 > x.2 :=
        lt_of_lt_of_le hzx (le_python_max_snd ys z)
      have hstep : python_max (if z.2 > y.2 then z else y) ys =
          python_max z ys := by rw [if_pos hzy]
      show python_max z ys =
        if (python_max (if z.2 > y.2 then z else y) ys).2 > x.2 then
          python_max (if z.2 > y.2 then z else y) ys else x
      rw [hstep, if_pos hm]
    · show python_max (if z.2 > x.2 then z else x) ys = _
      rw [if_neg hzx]
      by_cases hzy : z.2 > y.2
      · have hstep : python_max (if z.2 > y.2 then z else y) ys =
            python_max z ys := by rw [if_pos hzy]
        show python_max x ys =
          if (python_max (if z.2 > y.2 then z else y) ys).2 > x.2 then
            python_max (if z.2 > y.2 then z else y) ys else x
        rw [hstep]
        exact ih x z (not_lt.mp hzx)
      · have hstep : python_max (if z.2 > y.2 then z else y) ys =
            python_max y ys := by rw [if_neg hzy]
        show python_max x ys =
          if (python_max (if z.2 > y.2 then z else y) ys).2 > x.2 then
            python_max (if z.2 > y.2 then z else y) ys else x
        rw [hstep]
        exact ih x y h

lemma python_max_eq_first_max :
    ∀ (ys : List (String × ℚ)) (x : String × ℚ),
      python_max x ys = first_max x ys := by
  intro ys
  induction ys with
  | nil => intro x; rfl
  | cons y ys ih =>
    intro x
    show python_max (if y.2 > x.2 then y else x) ys =
      (let m := first_max y ys; if m.2 > x.2 then m else x)
    rw [← ih y]
    by_cases h : y.2 > x.2
    · rw [if_pos h]
      have hm : (python_max y ys).2 > x.2 :=
        lt_of_lt_of_le h (le_python_max_snd ys y)
      simp only []
      rw [if_pos hm]
    · rw [if_neg h]
      simp only []
      exact python_max_shift ys x y (not_lt.mp h)

/-- Membership of the interval `[0, 1]`. -/
def inUnit (x : ℚ) : Prop := 0 ≤ x ∧ x ≤ 1

lemma clamp01_inUnit (s : ℚ) : inUnit (clamp01 s) :=
  ⟨le_max_left _ _, max_le (by norm_num) (min_le_left _ _)⟩

/-- Claim C6: each of the nine type-scoring functions is clamped to
`[0, 1]` for every feature vector, and the confidence attached to a
classified zone is the maximum of the nine scores. -/
theorem classifier_scores_unit_interval (f : Features) (z : Zone) :
    inUnit (score_title f) ∧ inUnit (score_subtitle f) ∧
    inUnit (score_header f) ∧ inUnit (score_paragraph f) ∧
    inUnit (score_list f) ∧ inUnit (score_table f) ∧
    inUnit (score_card f) ∧ inUnit (score_caption f) ∧
    inUnit (score_footnote f) ∧
    (classify_features f).confidence = maxNine f ∧
    (classify_zone_advanced z).confidence = maxNine (extract_features z) := by
  have hconf : ∀ g : Features,
      (classify_features g).confidence = maxNine g := by
    intro g
    show (python_max ("title", score_title g)
        [("subtitle", score_subtitle g), ("header", score_header g),
         ("paragraph", score_paragraph g), ("list", score_list g),
         ("table_like", score_table g), ("card", score_card g),
         ("caption", score_caption g),
         ("footnote", score_footnote g)]).2 = maxNine g
    rw [snd_python_max]
    rfl
  exact ⟨clamp01_inUnit _, clamp01_inUnit _, clamp01_inUnit _,
    clamp01_inUnit _, clamp01_inUnit _, clamp01_inUnit _,
    clamp01_inUnit _, clamp01_inUnit _, clamp01_inUnit _,
    hconf f, hconf (extract_features z)⟩

/-- Claim C1 (amended): the classifier selects the type of maximal score,
with exact ties broken by the *evaluation order* of the score dict —
title, subtitle, header, paragraph, list, table_like, card, caption,
footnote — because Python's `max` keeps the first maximal item
(`amended_select` is the first-maximum reference selection in that
order). -/
theorem classify_argmax_insertion_order (f : Features) (z : Zone) :
    (classify_features f).type = (amended_select f).1 ∧
    (classify_features f).confidence = (amended_select f).2 ∧
    (classify_zone_advanced z).type =
      (amended_select (extract_features z)).1 := by
  have h : ∀ g : Features,
      (classify_features g).type = (amended_select g).1 ∧
      (classify_features g).confidence = (amended_select g).2 := by
    intro g
    have he : python_max ("title", score_title g)
        [("subtitle", score_subtitle g), ("header", score_header g),
         ("paragraph", score_paragraph g), ("list", score_list g),
         ("table_like", score_table g), ("card", score_card g),
         ("caption", score_caption g), ("footnote", score_footnote g)] =
        first_max ("title", score_title g)
        [("subtitle", score_subtitle g), ("header", score_header g),
         ("paragraph", score_paragraph g), ("list", score_list g),
         ("table_like", score_table g), ("card", score_card g),
         ("caption", score_caption g), ("footnote", score_footnote g)] :=
      python_max_eq_first_max _ _
    constructor
    · show (python_max ("title", score_title g) _).1 =
        (first_max ("title", score_title g) _).1
      rw [he]
    · show (python_max ("title", score_title g) _).2 =
        (first_max ("title", score_title g) _).2
      rw [he]
  exact ⟨(h f).1, (h f).2, (h (extract_features z)).1⟩

/-- Feature vector of a realistic zone (one bold 15-pt line reading
`12 abc def gh ij`, 250 x 40 units, one block) on which the subtitle and
header scores tie at the maximum 0.85. -/
def tieFeatures : Features :=
  { width := 250, height := 40, area := 10000, aspect := 25 / 4,
    text_length := 16, word_count := 5, line_count := 1,
    avg_line_length := 16, avg_font_size := 15, max_font_size := 15,
    has_bold := true, has_italic := false, block_count := 1,
    has_numbers := true, has_uppercase := false, upperFrac := 0,
    has_list_markers := false, has_table_words := false,
    is_short := true, is_long := false, starts_with_number := true,
    is_all_caps := false, has_colon := false, has_dash := false }

/-- Claim C1 counterexample: on `tieFeatures` the subtitle and header
scores tie at the maximum (both 0.85 = 0.3 + 0.2 + 0.2 + 0.15, identical
addition chains even in floating point), and the code selects `subtitle`
(dict insertion order) while the claimed priority order title > header >
subtitle > ... would select `header`.  So the classifier does not break
ties by the claimed priority order. -/
theorem classify_tie_break_counterexample :
    ¬ (∀ f : Features, (classify_features f).type = (claim_select f).1) := by
  intro h
  have h0 := h tieFeatures
  have e1 : (classify_features tieFeatures).type = "subtitle" := by
    norm_num [classify_features, scoresList, python_max, claim_select,
      first_max, score_title, score_subtitle, score_header,
      score_paragraph, score_list, score_table, score_card,
      score_caption, score_footnote, clamp01, tieFeatures]
  have e2 : (claim_select tieFeatures).1 = "header" := by
    norm_num [claim_select, first_max, score_title, score_subtitle,
      score_header, score_paragraph, score_list, score_table,
      score_card, score_caption, score_footnote, clamp01, tieFeatures]
  rw [e1, e2] at h0
  exact absurd h0 (by decide)

/-! ## Table extraction pipeline (`_extract_tables_advanced`,
`_validate_table`, `_structure_manual_table`; C2, C3, C7) -/

/-- Leading-whitespace removal on a character list. -/
def dropLeadingWS : List Char → List Char
  | [] => []
  | c :: cs => if c.isWhitespace then dropLeadingWS cs else c :: cs

/-- Python `str.strip()`: drop leading and trailing whitespace. -/
def pyStrip (s : String) : String :=
  ⟨(dropLeadingWS (dropLeadingWS s.data).reverse).reverse⟩

/-- One table of the page record: `method`, `headers`, `rows`, `quality`,
`columns`, `rows_count` (the dicts built at lines 712-719, 744-751,
767-774 and 897-904). -/
structure TableRec where
  method : String
  headers : List String
  rows : List (List String)
  quality : ℤ
  columns : ℕ
  rows_count : ℕ
  deriving DecidableEq, Repr

/-- `AdvancedPDFExtractor._validate_table` (lines 789-824), returning
`(headers, rows)` on success.  The source tests each raw row for a
non-blank cell and then appends the stripped row; stripping first and
then filtering on non-emptiness is the same computation. -/
def validate_table (table_data : List (List String)) :
    Option (List String × List (List String)) :=
  if table_data.length < 2 then none
  else
    let cleaned_rows :=
      (table_data.map (fun row => row.map pyStrip)).filter
        (fun row => row.any (fun c => decide (c ≠ "")))
    if cleaned_rows.length < 2 then none
    else
      match cleaned_rows with
      | [] => none
      | headers :: rows =>
        let num_cols := headers.length
        let valid_rows := rows.map (fun row =>
          if row.length < num_cols then
            row ++ List.replicate (num_cols - row.length) ""
          else if row.length > num_cols then row.take num_cols
          else row)
        some (headers, valid_rows)

/-- `AdvancedPDFExtractor._structure_manual_table` (lines 873-904).  A
line is the list of its span texts sorted by x (the `item['text']`
values); `int(sum/len)` on positive counts is floor division. -/
def structure_manual_table (table_lines : List (List String)) :
    Option TableRec :=
  if table_lines.length < 3 then none
  else
    let col_counts := table_lines.map List.length
    let avg_cols := col_counts.sum / col_counts.length
    if avg_cols < 2 then none
    else
      match table_lines with
      | [] => none
      | l0 :: rest =>
        let headers := l0.take avg_cols
        let rows := rest.map (fun line =>
          let row := line.take avg_cols
          row ++ List.replicate (headers.length - row.length) "")
        some { method := "manual_structure", headers := headers,
               rows := rows, quality := 70, columns := headers.length,
               rows_count := rows.length }

/-- Per-page environment of `_extract_tables_advanced`: availability of
the two backends, the raw grids each backend strategy would return for
this page, and the line groups the manual structural detector
(`_detect_tables_by_structure`) would assemble.  Each camelot grid comes
with the accuracy the backend reports for it (already truncated to an
integer, as by `int(table.accuracy)`).  `plAccuracy` is the accuracy
backend A would report: the source never reads such a value (pdfplumber
reports none); the field exists only to state claim C7. -/
structure TablesEnv where
  pdfplumber_available : Bool
  camelot_available : Bool
  pl_lines : List (List (List String))
  pl_lines_strict : List (List (List String))
  pl_text : List (List (List String))
  plAccuracy : ℤ
  cam_lattice : List ((List (List String)) × ℤ)
  cam_stream : List ((List (List String)) × ℤ)
  manual_candidates : List (List (List String))
  deriving Repr

/-- Table record built from a validated `(headers, rows)` pair. -/
def mkValidated (methodName : String) (quality : ℤ)
    (v : List String × List (List String)) : TableRec :=
  { method := methodName, headers := v.1, rows := v.2, quality := quality,
    columns := v.1.length, rows_count := v.2.length }

/-- The pdfplumber arm for one strategy (lines 708-719): keep raw tables
with `len(table) > 1`, validate each, attach quality 90. -/
def plValidated (strategy : String) (raws : List (List (List String))) :
    List TableRec :=
  (raws.filter (fun t => decide (t.length > 1))).filterMap
    (fun t => (validate_table t).map
      (mkValidated ("pdfplumber_" ++ strategy) 90))

/-- The camelot arm for one flavor (lines 739-751 and 762-774): keep
non-empty dataframes, validate each, attach the reported accuracy. -/
def camValidated (flavor : String)
    (raws : List ((List (List String)) × ℤ)) : List TableRec :=
  (raws.filter (fun ga => !ga.1.isEmpty)).filterMap
    (fun ga => (validate_table ga.1).map
      (mkValidated ("camelot_" ++ flavor) ga.2))

/-- `_detect_tables_by_structure` tail (lines 826-871): every assembled
line group is structured by `_structure_manual_table`; failures are
dropped. -/
def manual_tables (cands : List (List (List String))) : List TableRec :=
  cands.filterMap structure_manual_table

/-- `AdvancedPDFExtractor._extract_tables_advanced` (lines 689-787),
returning the tables together with the chain indices of the strategies
actually attempted (0 = pdfplumber lines, 1 = pdfplumber lines_strict,
2 = pdfplumber text, 3 = camelot lattice, 4 = camelot stream,
5 = manual fallback).  Control flow as in the source: the pdfplumber
loop breaks as soon as `tables` is non-empty; camelot runs only when
`tables` is still empty (stream only after an empty lattice pass); the
manual detector runs only when both backends produced nothing. -/
def extract_tables_advanced (env : TablesEnv) :
    List TableRec × List ℕ :=
  let step1 : List TableRec × List ℕ :=
    if env.pdfplumber_available then
      let s0 := plValidated "lines" env.pl_lines
      if !s0.isEmpty then (s0, [0])
      else
        let s1 := plValidated "lines_strict" env.pl_lines_strict
        if !s1.isEmpty then (s1, [0, 1])
        else (plValidated "text" env.pl_text, [0, 1, 2])
    else ([], [])
  if !step1.1.isEmpty then step1
  else
    let step2 : List TableRec × List ℕ :=
      if env.camelot_available then
        let lt := camValidated "lattice" env.cam_lattice
        if !lt.isEmpty then (lt, step1.2 ++ [3])
        else (camValidated "stream" env.cam_stream, step1.2 ++ [3, 4])
      else ([], step1.2)
    if !step2.1.isEmpty then step2
    else (manual_tables env.manual_candidates, step2.2 ++ [5])

/-- The validated tables strategy `i` of the chain yields on this page. -/
def strategy_tables (env : TablesEnv) : ℕ → List TableRec
  | 0 => plValidated "lines" env.pl_lines
  | 1 => plValidated "lines_strict" env.pl_lines_strict
  | 2 => plValidated "text" env.pl_text
  | 3 => camValidated "lattice" env.cam_lattice
  | 4 => camValidated "stream" env.cam_stream
  | 5 => manual_tables env.manual_candidates
  | _ => []

lemma strategy_tables_zero (env : TablesEnv) :
    strategy_tables env 0 = plValidated "lines" env.pl_lines := rfl

/-- Claim C3: the table pipeline never attempts a later strategy of the
chain (pdfplumber lines / lines_strict / text, camelot lattice / stream,
manual fallback) once an earlier attempted strategy has produced at least
one validated table for the page. -/
theorem table_pipeline_short_circuits (env : TablesEnv) (i j : ℕ)
    (hij : i < j) (hi : i ∈ (extract_tables_advanced env).2)
    (hprod : 1 ≤ (strategy_tables env i).length) :
    j ∉ (extract_tables_advanced env).2 := by
  by_cases hpl : env.pdfplumber_available = true
  · by_cases h0 : (plValidated "lines" env.pl_lines).isEmpty = true
    · rw [List.isEmpty_iff] at h0
      by_cases h1 :
          (plValidated "lines_strict" env.pl_lines_strict).isEmpty = true
      · rw [List.isEmpty_iff] at h1
        by_cases h2 : (plValidated "text" env.pl_text).isEmpty = true
        · rw [List.isEmpty_iff] at h2
          by_cases hcam : env.camelot_available = true
          · by_cases hlt :
                (camValidated "lattice" env.cam_lattice).isEmpty = true
            · rw [List.isEmpty_iff] at hlt
              by_cases hst :
                  (camValidated "stream" env.cam_stream).isEmpty = true
              · rw [List.isEmpty_iff] at hst
                have he : (extract_tables_advanced env).2 =
                    [0, 1, 2, 3, 4, 5] := by
                  simp [extract_tables_advanced, hpl, h0, h1, h2, hcam,
                    hlt, hst]
                rw [he] at hi ⊢
                simp only [List.mem_cons, List.not_mem_nil, or_false] at hi ⊢
                rcases hi with rfl | rfl | rfl | rfl | rfl | rfl
                · simp [strategy_tables, h0] at hprod
                · simp [strategy_tables, h1] at hprod
                · simp [strategy_tables, h2] at hprod
                · simp [strategy_tables, hlt] at hprod
                · simp [strategy_tables, hst] at hprod
                · omega
              · have he : (extract_tables_advanced env).2 =
                    [0, 1, 2, 3, 4] := by
                  simp [extract_tables_advanced, hpl, h0, h1, h2, hcam,
                    hlt, hst]
                rw [he] at hi ⊢
                simp only [List.mem_cons, List.not_mem_nil, or_false] at hi ⊢
                rcases hi with rfl | rfl | rfl | rfl | rfl
                · simp [strategy_tables, h0] at hprod
                · simp [strategy_tables, h1] at hprod
                · simp [strategy_tables, h2] at hprod
                · simp [strategy_tables, hlt] at hprod
                · omega
            · have he : (extract_tables_advanced env).2 = [0, 1, 2, 3] := by
                simp [extract_tables_advanced, hpl, h0, h1, h2, hcam, hlt]
              rw [he] at hi ⊢
              simp only [List.mem_cons, List.not_mem_nil, or_false] at hi ⊢
              rcases hi with rfl | rfl | rfl | rfl
              · simp [strategy_tables, h0] at hprod
              · simp [strategy_tables, h1] at hprod
              · simp [strategy_tables, h2] at hprod
              · omega
          · have he : (extract_tables_advanced env).2 = [0, 1, 2, 5] := by
              simp [extract_tables_advanced, hpl, h0, h1, h2, hcam]
            rw [he] at hi ⊢
            simp only [List.mem_cons, List.not_mem_nil, or_false] at hi ⊢
            rcases hi with rfl | rfl | rfl | rfl
            · simp [strategy_tables, h0] at hprod
            · simp [strategy_tables, h1] at hprod
            · simp [strategy_tables, h2] at hprod
            · omega
        · have he : (extract_tables_advanced env).2 = [0, 1, 2] := by
            simp [extract_tables_advanced, hpl, h0, h1, h2]
          rw [he] at hi ⊢
          simp only [List.mem_cons, List.not_mem_nil, or_false] at hi ⊢
          rcases hi with rfl | rfl | rfl
          · simp [strategy_tables, h0] at hprod
          · simp [strategy_tables, h1] at hprod
          · omega
      · have he : (extract_tables_advanced env).2 = [0, 1] := by
          simp [extract_tables_advanced, hpl, h0, h1]
        rw [he] at hi ⊢
        simp only [List.mem_cons, List.not_mem_nil, or_false] at hi ⊢
        rcases hi with rfl | rfl
        · simp [strategy_tables, h0] at hprod
        · omega
    · have he : (extract_tables_advanced env).2 = [0] := by
        simp [extract_tables_advanced, hpl, h0]
      rw [he] at hi ⊢
      simp only [List.mem_cons, List.not_mem_nil, or_false] at hi ⊢
      rcases hi with rfl
      omega
  · by_cases hcam : env.camelot_available = true
    · by_cases hlt : (camValidated "lattice" env.cam_lattice).isEmpty = true
      · rw [List.isEmpty_iff] at hlt
        by_cases hst : (camValidated "stream" env.cam_stream).isEmpty = true
        · rw [List.isEmpty_iff] at hst
          have he : (extract_tables_advanced env).2 = [3, 4, 5] := by
            simp [extract_tables_advanced, hpl, hcam, hlt, hst]
          rw [he] at hi ⊢
          simp only [List.mem_cons, List.not_mem_nil, or_false] at hi ⊢
          rcases hi with rfl | rfl | rfl
          · simp [strategy_tables, hlt] at hprod
          · simp [strategy_tables, hst] at hprod
          · omega
        · have he : (extract_tables_advanced env).2 = [3, 4] := by
            simp [extract_tables_advanced, hpl, hcam, hlt, hst]
          rw [he] at hi ⊢
          simp only [List.mem_cons, List.not_mem_nil, or_false] at hi ⊢
          rcases hi with rfl | rfl
          · simp [strategy_tables, hlt] at hprod
          · omega
      · have he : (extract_tables_advanced env).2 = [3] := by
          simp [extract_tables_advanced, hpl, hcam, hlt]
        rw [he] at hi ⊢
        simp only [List.mem_cons, List.not_mem_nil, or_false] at hi ⊢
        rcases hi with rfl
        omega
    · have he : (extract_tables_advanced env).2 = [5] := by
        simp [extract_tables_advanced, hpl, hcam]
      rw [he] at hi ⊢
      simp only [List.mem_cons, List.not_mem_nil, or_false] at hi ⊢
      rcases hi with rfl
      omega

lemma validate_table_inv {d : List (List String)}
    {v : List String × List (List String)} (h : validate_table d = some v) :
    0 < v.1.length ∧ ∀ r ∈ v.2, r.length = v.1.length := by
  simp only [validate_table] at h
  split_ifs at h with hlen hclean
  split at h
  · exact absurd h (by simp)
  · next headers rows hc =>
    rw [Option.some_inj] at h
    subst h
    dsimp only
    constructor
    · have hmem : headers ∈
          (d.map (fun row => row.map pyStrip)).filter
            (fun row => row.any (fun c => decide (c ≠ ""))) := by
        rw [hc]; exact List.mem_cons_self _ _
      have hpred := (List.mem_filter.mp hmem).2
      rcases List.any_eq_true.mp hpred with ⟨c, hcmem, _⟩
      exact List.length_pos.mpr (List.ne_nil_of_mem hcmem)
    · intro r hr
      rcases List.mem_map.mp hr with ⟨row, _, hrow⟩
      subst hrow
      by_cases h1 : row.length < headers.length
      · rw [if_pos h1]
        simp only [List.length_append, List.length_replicate]
        omega
      · rw [if_neg h1]
        by_cases h2 : row.length > headers.length
        · rw [if_pos h2]
          simp only [List.length_take]
          omega
        · rw [if_neg h2]
          omega

lemma structure_manual_table_inv {table_lines : List (List String)}
    {t : TableRec}
    (hlines : ∀ l ∈ table_lines, 3 ≤ l.length)
    (h : structure_manual_table table_lines = some t) :
    t.method = "manual_structure" ∧ t.quality = 70 ∧
      0 < t.headers.length ∧ ∀ r ∈ t.rows, t.headers.length ≤ r.length := by
  simp only [structure_manual_table] at h
  split_ifs at h with hlen havg
  split at h
  · exact absurd h (by simp)
  · next l0 rest =>
    rw [Option.some_inj] at h
    subst h
    have hl0 : 3 ≤ l0.length := hlines l0 (by simp)
    have havg2 : 2 ≤ ((l0 :: rest).map List.length).sum /
        ((l0 :: rest).map List.length).length := not_lt.mp havg
    refine ⟨rfl, rfl, ?_, ?_⟩
    · simp only [List.length_take]
      omega
    · intro r hr
      rcases List.mem_map.mp hr with ⟨line, _, hline⟩
      subst hline
      simp only [List.length_append, List.length_replicate]
      omega

lemma plValidated_inv {strategy : String}
    {raws : List (List (List String))} {t : TableRec}
    (h : t ∈ plValidated strategy raws) :
    t.method = "pdfplumber_" ++ strategy ∧ t.quality = 90 ∧
      0 < t.headers.length ∧ ∀ r ∈ t.rows, r.length = t.headers.length := by
  rcases List.mem_filterMap.mp h with ⟨raw, _, hmap⟩
  rcases Option.map_eq_some'.mp hmap with ⟨v, hv, hmk⟩
  have hinv := validate_table_inv hv
  subst hmk
  exact ⟨rfl, rfl, hinv.1, hinv.2⟩

lemma camValidated_inv {flavor : String}
    {raws : List ((List (List String)) × ℤ)} {t : TableRec}
    (h : t ∈ camValidated flavor raws) :
    t.method = "camelot_" ++ flavor ∧ t.quality ∈ raws.map Prod.snd ∧
      0 < t.headers.length ∧ ∀ r ∈ t.rows, r.length = t.headers.length := by
  rcases List.mem_filterMap.mp h with ⟨ga, hga, hmap⟩
  rcases Option.map_eq_some'.mp hmap with ⟨v, hv, hmk⟩
  have hinv := validate_table_inv hv
  subst hmk
  refine ⟨rfl, ?_, hinv.1, hinv.2⟩
  exact List.mem_map_of_mem _ (List.mem_of_mem_filter hga)

lemma manual_tables_inv {cands : List (List (List String))} {t : TableRec}
    (hin : ∀ c ∈ cands, ∀ l ∈ c, 3 ≤ l.length)
    (h : t ∈ manual_tables cands) :
    t.method = "manual_structure" ∧ t.quality = 70 ∧
      0 < t.headers.length ∧ ∀ r ∈ t.rows, t.headers.length ≤ r.length := by
  rcases List.mem_filterMap.mp h with ⟨cand, hcand, hsome⟩
  exact structure_manual_table_inv (hin cand hcand) hsome

lemma extract_tables_cases (env : TablesEnv) :
    ∀ t ∈ (extract_tables_advanced env).1,
      t ∈ plValidated "lines" env.pl_lines ∨
      t ∈ plValidated "lines_strict" env.pl_lines_strict ∨
      t ∈ plValidated "text" env.pl_text ∨
      t ∈ camValidated "lattice" env.cam_lattice ∨
      t ∈ camValidated "stream" env.cam_stream ∨
      t ∈ manual_tables env.manual_candidates := by
  intro t ht
  simp only [extract_tables_advanced] at ht
  split_ifs at ht <;> simp_all

/-- Claim C2 (amended): every table surfaced by the pipeline has a
non-empty header and every body row at least as long as the header; the
exact row-length equality additionally holds for every non-manual table
(backends A and B go through `_validate_table`), but the manual
structural fallback does not run the validation step and only pads rows
up to the header length while truncating them to the average column
count, which can exceed the header length.  The hypothesis reflects what
`_detect_tables_by_structure` feeds the fallback: every assembled line
has at least 3 items. -/
theorem tables_column_consistency (env : TablesEnv)
    (hinput : ∀ cand ∈ env.manual_candidates, ∀ line ∈ cand,
      3 ≤ line.length) :
    ∀ t ∈ (extract_tables_advanced env).1,
      0 < t.headers.length ∧
      (∀ r ∈ t.rows, t.headers.length ≤ r.length) ∧
      (t.method ≠ "manual_structure" →
        ∀ r ∈ t.rows, r.length = t.headers.length) := by
  intro t ht
  rcases extract_tables_cases env t ht with h | h | h | h | h | h
  · have hv := plValidated_inv h
    exact ⟨hv.2.2.1, fun r hr => le_of_eq (hv.2.2.2 r hr).symm,
      fun _ => hv.2.2.2⟩
  · have hv := plValidated_inv h
    exact ⟨hv.2.2.1, fun r hr => le_of_eq (hv.2.2.2 r hr).symm,
      fun _ => hv.2.2.2⟩
  · have hv := plValidated_inv h
    exact ⟨hv.2.2.1, fun r hr => le_of_eq (hv.2.2.2 r hr).symm,
      fun _ => hv.2.2.2⟩
  · have hv := camValidated_inv h
    exact ⟨hv.2.2.1, fun r hr => le_of_eq (hv.2.2.2 r hr).symm,
      fun _ => hv.2.2.2⟩
  · have hv := camValidated_inv h
    exact ⟨hv.2.2.1, fun r hr => le_of_eq (hv.2.2.2 r hr).symm,
      fun _ => hv.2.2.2⟩
  · have hv := manual_tables_inv hinput h
    exact ⟨hv.2.2.1, hv.2.2.2, fun hm => absurd hv.1 hm⟩

/-- Page environment for the C2 counterexample: both backends off, a
single manual candidate whose bands have 3, 9 and 9 items, so the
average column count is 7 while the first band (the header) has only
3 items. -/
def unevenManualEnv : TablesEnv :=
  { pdfplumber_available := false, camelot_available := false,
    pl_lines := [], pl_lines_strict := [], pl_text := [],
    plAccuracy := 0, cam_lattice := [], cam_stream := [],
    manual_candidates :=
      [[["a", "b", "c"],
        ["1", "2", "3", "4", "5", "6", "7", "8", "9"],
        ["1", "2", "3", "4", "5", "6", "7", "8", "9"]]] }

/-- The manual table the pipeline produces on `unevenManualEnv`: header
of 3 cells, body rows of 7 cells each. -/
def unevenManualTable : TableRec :=
  { method := "manual_structure", headers := ["a", "b", "c"],
    rows := [["1", "2", "3", "4", "5", "6", "7"],
             ["1", "2", "3", "4", "5", "6", "7"]],
    quality := 70, columns := 3, rows_count := 2 }

/-- Claim C2 counterexample: the manual structural fallback is *not* run
through `_validate_table`, and on a candidate with bands of 3, 9 and 9
items it emits a table whose header has 3 cells but whose rows have 7
cells each (rows are truncated to the average column count 7, not to the
header length), so not every surfaced table has row length equal to
header length. -/
theorem tables_column_counterexample :
    ¬ (∀ env : TablesEnv,
        (∀ cand ∈ env.manual_candidates, ∀ line ∈ cand,
          3 ≤ line.length) →
        ∀ t ∈ (extract_tables_advanced env).1,
          0 < t.headers.length ∧
          ∀ r ∈ t.rows, r.length = t.headers.length) := by
  intro h
  have h2 := (h unevenManualEnv (by decide) unevenManualTable
    (by decide)).2 ["1", "2", "3", "4", "5", "6", "7"] (by decide)
  exact absurd h2 (by decide)

/-- Claim C2 witness: the amended theorem evaluated on the same
environment, at the concrete emitted table and one of its rows. -/
theorem tables_column_consistency_witness :
    0 < unevenManualTable.headers.length ∧
    unevenManualTable.headers.length ≤
      (["1", "2", "3", "4", "5", "6", "7"] : List String).length := by
  have h := tables_column_consistency unevenManualEnv (by decide)
    unevenManualTable (by decide)
  exact ⟨h.1, h.2.1 ["1", "2", "3", "4", "5", "6", "7"] (by decide)⟩

/-- Claim C3 witness: a page where the first pdfplumber strategy yields
one validated table; the pipeline attempts strategy 0 only. -/
def firstHitEnv : TablesEnv :=
  { pdfplumber_available := true, camelot_available := true,
    pl_lines := [[["h1", "h2"], ["a", "b"]]],
    pl_lines_strict := [], pl_text := [], plAccuracy := 90,
    cam_lattice := [([["x", "y"], ["1", "2"]], 80)], cam_stream := [],
    manual_candidates := [] }

/-- Claim C3 witness: on `firstHitEnv` strategy 0 is attempted and
produces one validated table, and strategy 1 (and beyond) is never
attempted. -/
theorem table_pipeline_short_circuits_witness :
    (0 : ℕ) < 1 ∧ 0 ∈ (extract_tables_advanced firstHitEnv).2 ∧
    1 ≤ (strategy_tables firstHitEnv 0).length ∧
    1 ∉ (extract_tables_advanced firstHitEnv).2 :=
  ⟨by decide, by decide, by decide,
    table_pipeline_short_circuits firstHitEnv 0 1 (by decide) (by decide)
      (by decide)⟩

lemma manual_tables_method_quality {cands : List (List (List String))}
    {t : TableRec} (h : t ∈ manual_tables cands) :
    t.method = "manual_structure" ∧ t.quality = 70 := by
  rcases List.mem_filterMap.mp h with ⟨cand, _, hsome⟩
  simp only [structure_manual_table] at hsome
  split_ifs at hsome
  split at hsome
  · exact absurd hsome (by simp)
  · next l0 rest =>
    rw [Option.some_inj] at hsome
    subst hsome
    exact ⟨rfl, rfl⟩

/-- Claim C7 (amended): every pdfplumber table carries the fixed quality
score 90 (pdfplumber reports no accuracy; the source hard-codes 90),
every camelot table carries the accuracy reported by camelot for one of
that flavor's grids, and every manual-fallback table carries the fixed
quality 70. -/
theorem table_quality_scores (env : TablesEnv) :
    ∀ t ∈ (extract_tables_advanced env).1,
      ((t.method = "pdfplumber_lines" ∨
        t.method = "pdfplumber_lines_strict" ∨
        t.method = "pdfplumber_text") → t.quality = 90) ∧
      (t.method = "camelot_lattice" →
        t.quality ∈ env.cam_lattice.map Prod.snd) ∧
      (t.method = "camelot_stream" →
        t.quality ∈ env.cam_stream.map Prod.snd) ∧
      (t.method = "manual_structure" → t.quality = 70) := by
  intro t ht
  rcases extract_tables_cases env t ht with h | h | h | h | h | h
  · have hv := plValidated_inv h
    refine ⟨fun _ => hv.2.1, ?_, ?_, ?_⟩ <;>
      (intro hm; rw [hv.1] at hm; exact absurd hm (by decide))
  · have hv := plValidated_inv h
    refine ⟨fun _ => hv.2.1, ?_, ?_, ?_⟩ <;>
      (intro hm; rw [hv.1] at hm; exact absurd hm (by decide))
  · have hv := plValidated_inv h
    refine ⟨fun _ => hv.2.1, ?_, ?_, ?_⟩ <;>
      (intro hm; rw [hv.1] at hm; exact absurd hm (by decide))
  · have hv := camValidated_inv h
    refine ⟨?_, fun _ => hv.2.1, ?_, ?_⟩ <;>
      (intro hm; first
        | (rcases hm with hm | hm | hm) <;>
            (rw [hv.1] at hm; exact absurd hm (by decide))
        | (rw [hv.1] at hm; exact absurd hm (by decide)))
  · have hv := camValidated_inv h
    refine ⟨?_, ?_, fun _ => hv.2.1, ?_⟩ <;>
      (intro hm; first
        | (rcases hm with hm | hm | hm) <;>
            (rw [hv.1] at hm; exact absurd hm (by decide))
        | (rw [hv.1] at hm; exact absurd hm (by decide)))
  · have hv := manual_tables_method_quality h
    refine ⟨?_, ?_, ?_, fun _ => hv.2⟩ <;>
      (intro hm; first
        | (rcases hm with hm | hm | hm) <;>
            (rw [hv.1] at hm; exact absurd hm (by decide))
        | (rw [hv.1] at hm; exact absurd hm (by decide)))

/-- Page environment for C7: a pdfplumber table, while backend A "would
report" accuracy 50 (`plAccuracy`), which the source never reads. -/
def plQualityEnv : TablesEnv :=
  { pdfplumber_available := true, camelot_available := false,
    pl_lines := [[["A", "B"], ["1", "2"]]],
    pl_lines_strict := [], pl_text := [], plAccuracy := 50,
    cam_lattice := [], cam_stream := [], manual_candidates := [] }

/-- The table the pipeline produces on `plQualityEnv`. -/
def plQualityTable : TableRec :=
  { method := "pdfplumber_lines", headers := ["A", "B"],
    rows := [["1", "2"]], quality := 90, columns := 2, rows_count := 1 }

/-- Claim C7 counterexample: tables from backend A (pdfplumber) do not
carry a backend-reported accuracy — the source hard-codes quality 90 for
every pdfplumber table, regardless of any accuracy the backend would
report (here 50). -/
theorem table_quality_counterexample :
    ¬ (∀ env : TablesEnv, ∀ t ∈ (extract_tables_advanced env).1,
        (t.method = "pdfplumber_lines" ∨
         t.method = "pdfplumber_lines_strict" ∨
         t.method = "pdfplumber_text") → t.quality = env.plAccuracy) := by
  intro h
  have h2 := h plQualityEnv plQualityTable (by decide) (Or.inl rfl)
  exact absurd h2 (by decide)

/-- Claim C7 witness: the amended theorem applied to the concrete
pdfplumber table of `plQualityEnv`, whose quality is the fixed 90. -/
theorem table_quality_scores_witness :
    plQualityTable.quality = 90 ∧
    plQualityTable.method = "pdfplumber_lines" :=
  ⟨(table_quality_scores plQualityEnv plQualityTable (by decide)).1
    (Or.inl rfl), rfl⟩

/-! ## Image classifier (`_classify_image`, C8) -/

/-- `AdvancedPDFExtractor._classify_image` (lines 949-974), a function of
the image's area and aspect ratio (the only fields the source reads). -/
def classify_image (area aspect : ℚ) : String :=
  if area < 10000 ∧ 0.8 < aspect ∧ aspect < 1.2 then "logo"
  else if area < 2000 then "icon"
  else if aspect > 3 then "banner"
  else if 10000 < area ∧ area < 200000 then "chart"
  else if area > 100000 then "photo"
  else "figure"

/-- Claim C8 (amended): the rule chain is evaluated in order with first
match winning, so an image of area 1,500 classifies as `icon` only for
aspect ratios outside (0.8, 1.2) — inside that interval the logo rule
fires first and it classifies as `logo`; an image of area 9,000 and
aspect ratio 1.0 classifies as `logo`. -/
theorem classify_image_rule_chain (aspect : ℚ) :
    (¬ (0.8 < aspect ∧ aspect < 1.2) →
      classify_image 1500 aspect = "icon") ∧
    ((0.8 < aspect ∧ aspect < 1.2) →
      classify_image 1500 aspect = "logo") ∧
    classify_image 9000 1 = "logo" := by
  refine ⟨?_, ?_, ?_⟩
  · intro h
    have h1 : ¬ ((1500 : ℚ) < 10000 ∧ 0.8 < aspect ∧ aspect < 1.2) :=
      fun hc => h hc.2
    rw [classify_image, if_neg h1, if_pos (by norm_num)]
  · intro h
    have h1 : (1500 : ℚ) < 10000 ∧ 0.8 < aspect ∧ aspect < 1.2 :=
      ⟨by norm_num, h⟩
    rw [classify_image, if_pos h1]
  · norm_num [classify_image]

/-- Claim C8 witness: the amended theorem at aspect ratio 2 (area 1,500
classifies as icon) and at the 9,000 / 1.0 logo case. -/
theorem classify_image_rule_chain_witness :
    ¬ ((0.8 : ℚ) < 2 ∧ (2 : ℚ) < 1.2) ∧
    classify_image 1500 2 = "icon" ∧
    classify_image 9000 1 = "logo" :=
  ⟨by norm_num, (classify_image_rule_chain 2).1 (by norm_num),
    (classify_image_rule_chain 2).2.2⟩

/-- Claim C8 counterexample: it is not true that an image of area 1,500
classifies as `icon` for *every* aspect ratio — at aspect ratio 1 the
logo rule, evaluated first, classifies it as `logo`. -/
theorem classify_image_icon_counterexample :
    ¬ (∀ aspect : ℚ, classify_image 1500 aspect = "icon") := by
  intro h
  have h2 := h 1
  have h3 : classify_image 1500 1 = "logo" := by norm_num [classify_image]
  rw [h3] at h2
  exact absurd h2 (by decide)

/-! ## Header/footer detection (`_detect_header_footer`, C9) -/

/-- The `{'text': ..., 'blocks': [...]}` value of one detected header or
footer zone. -/
structure HFZone where
  text : String
  blocks : List TextBlock
  deriving DecidableEq, Repr

/-- `AdvancedPDFExtractor._detect_header_footer` (lines 976-993),
returning the `header` and `footer` entries (`none` models Python's
`None`). -/
def detect_header_footer (text_blocks : List TextBlock)
    (page_height : ℚ) : Option HFZone × Option HFZone :=
  let header_zone := page_height * 0.1
  let footer_zone := page_height * 0.9
  let header_blocks := text_blocks.filter (fun b => decide (b.y1 < header_zone))
  let footer_blocks := text_blocks.filter (fun b => decide (b.y0 > footer_zone))
  ((if header_blocks.isEmpty then none
    else some { text := " ".intercalate (header_blocks.map (fun b => b.text)),
                blocks := header_blocks }),
   (if footer_blocks.isEmpty then none
    else some { text := " ".intercalate (footer_blocks.map (fun b => b.text)),
                blocks := footer_blocks }))

/-- Claim C9: on a page of height 0, header/footer detection reports no
header and no footer for every list of blocks lying on the page
(`0 ≤ y0 ≤ y1 ≤ page height = 0`); the computation multiplies and never
divides, so there is no division by zero. -/
theorem zero_height_no_header_footer (text_blocks : List TextBlock)
    (hin : ∀ b ∈ text_blocks, 0 ≤ b.y0 ∧ b.y0 ≤ b.y1 ∧ b.y1 ≤ 0) :
    detect_header_footer text_blocks 0 = (none, none) := by
  have hh : text_blocks.filter (fun b => decide (b.y1 < (0 : ℚ) * 0.1)) = [] := by
    rw [List.filter_eq_nil_iff]
    intro b hb
    have h1 := hin b hb
    simp only [decide_eq_true_eq]
    intro hlt
    rw [zero_mul] at hlt
    linarith [h1.1, h1.2.1]
  have hf : text_blocks.filter (fun b => decide (b.y0 > (0 : ℚ) * 0.9)) = [] := by
    rw [List.filter_eq_nil_iff]
    intro b hb
    have h1 := hin b hb
    simp only [decide_eq_true_eq]
    intro hlt
    rw [zero_mul] at hlt
    linarith [h1.2.1, h1.2.2]
  simp only [detect_header_footer, hh, hf]
  simp

/-- A degenerate block lying on a page of height 0. -/
def zeroHeightBlock : TextBlock :=
  { x0 := 0, y0 := 0, x1 := 10, y1 := 0, text := "pg",
    font_size := 12, font_name := "f", font_weight := "normal",
    color := 0, is_bold := false, is_italic := false }

/-- Claim C9 witness: one block on a zero-height page; both header and
footer are absent. -/
theorem zero_height_no_header_footer_witness :
    detect_header_footer [zeroHeightBlock] 0 = (none, none) :=
  zero_height_no_header_footer [zeroHeightBlock] (by
    intro b hb
    rw [List.mem_singleton] at hb
    subst hb
    refine ⟨le_refl 0, le_refl 0, le_refl 0⟩)

/-! ## Dominant font size (`_get_dominant_font_size`, C10) -/

/-- Keys of `Counter(l)` in first-insertion order: each value once, at
its first occurrence. -/
def firstOccs : List ℚ → List ℚ
  | [] => []
  | x :: xs => x :: firstOccs (xs.filter (fun y => decide (y ≠ x)))
  termination_by l => l.length
  decreasing_by
    simp only [List.length_cons]
    exact Nat.lt_succ_of_le (List.length_filter_le _ _)

/-- Walk the remaining keys keeping the current best, replacing it only
on a strictly greater multiplicity: the first key of maximal multiplicity
wins, as in `Counter.most_common` (stable sort by decreasing count). -/
def pickMax (l : List ℚ) : List ℚ → ℚ → ℚ
  | [], best => best
  | k :: ks, best =>
    if l.count k > l.count best then pickMax l ks k else pickMax l ks best

/-- `Counter(font_sizes).most_common(1)[0][0]`. -/
def most_common (l : List ℚ) : ℚ :=
  match firstOccs l with
  | [] => 0
  | k :: ks => pickMax l ks k

/-- `AdvancedPDFExtractor._get_dominant_font_size` (lines 995-1001). -/
def get_dominant_font_size (text_blocks : List TextBlock) : ℚ :=
  match text_blocks with
  | [] => 12
  | _ => most_common (text_blocks.map (fun b => b.font_size))

lemma pickMax_mem (l : List ℚ) :
    ∀ (ks : List ℚ) (best : ℚ), pickMax l ks best ∈ best :: ks := by
  intro ks
  induction ks with
  | nil => intro best; simp [pickMax]
  | cons k ks ih =>
    intro best
    rw [pickMax]
    by_cases h : l.count k > l.count best
    · rw [if_pos h]
      exact List.mem_cons_of_mem _ (ih k)
    · rw [if_neg h]
      rcases List.mem_cons.mp (ih best) with h1 | h2
      · rw [h1]; exact List.mem_cons_self _ _
      · exact List.mem_cons_of_mem _ (List.mem_cons_of_mem _ h2)

lemma pickMax_count_ge (l : List ℚ) :
    ∀ (ks : List ℚ) (best : ℚ), ∀ x ∈ best :: ks,
      l.count x ≤ l.count (pickMax l ks best) := by
  intro ks
  induction ks with
  | nil =>
    intro best x hx
    rw [List.mem_singleton] at hx
    subst hx
    simp [pickMax]
  | cons k ks ih =>
    intro best x hx
    rw [pickMax]
    by_cases h : l.count k > l.count best
    · rw [if_pos h]
      rcases List.mem_cons.mp hx with h1 | h2
      · rw [h1]
        exact le_trans (le_of_lt h) (ih k k (List.mem_cons_self _ _))
      · rcases List.mem_cons.mp h2 with h3 | h4
        · rw [h3]
          exact ih k k (List.mem_cons_self _ _)
        · exact ih k x (List.mem_cons_of_mem _ h4)
    · rw [if_neg h]
      rcases List.mem_cons.mp hx with h1 | h2
      · rw [h1]
        exact ih best best (List.mem_cons_self _ _)
      · rcases List.mem_cons.mp h2 with h3 | h4
        · rw [h3]
          exact le_trans (not_lt.mp h) (ih best best (List.mem_cons_self _ _))
        · exact ih best x (List.mem_cons_of_mem _ h4)

lemma firstOccs_subset :
    ∀ (n : ℕ) (l : List ℚ), l.length ≤ n → firstOccs l ⊆ l := by
  intro n
  induction n with
  | zero =>
    intro l hl
    rw [Nat.le_zero, List.length_eq_zero] at hl
    subst hl
    simp [firstOccs]
  | succ n ih =>
    intro l hl
    cases l with
    | nil => simp [firstOccs]
    | cons x xs =>
      rw [firstOccs]
      intro y hy
      rcases List.mem_cons.mp hy with h1 | h2
      · rw [h1]; exact List.mem_cons_self _ _
      · have hlen : (xs.filter (fun y => decide (y ≠ x))).length ≤ n := by
          have := List.length_filter_le (fun y => decide (y ≠ x)) xs
          simp only [List.length_cons, Nat.succ_le_succ_iff] at hl
          omega
        exact List.mem_cons_of_mem _
          (List.mem_of_mem_filter (ih _ hlen h2))

lemma mem_firstOccs :
    ∀ (n : ℕ) (l : List ℚ), l.length ≤ n → ∀ x ∈ l, x ∈ firstOccs l := by
  intro n
  induction n with
  | zero =>
    intro l hl
    rw [Nat.le_zero, List.length_eq_zero] at hl
    subst hl
    simp
  | succ n ih =>
    intro l hl x hx
    cases l with
    | nil => simp at hx
    | cons y ys =>
      rw [firstOccs]
      by_cases hxy : x = y
      · rw [hxy]; exact List.mem_cons_self _ _
      · have hxys : x ∈ ys := by
          rcases List.mem_cons.mp hx with h1 | h2
          · exact absurd h1 hxy
          · exact h2
        have hmem : x ∈ ys.filter (fun z => decide (z ≠ y)) :=
          List.mem_filter.mpr ⟨hxys, by simp [hxy]⟩
        have hlen : (ys.filter (fun z => decide (z ≠ y))).length ≤ n := by
          have := List.length_filter_le (fun z => decide (z ≠ y)) ys
          simp only [List.length_cons, Nat.succ_le_succ_iff] at hl
          omega
        exact List.mem_cons_of_mem _ (ih _ hlen x hmem)

/-- Claim C10: an empty block list yields the default dominant font size
12.0; a non-empty block list yields a font size that occurs on the page
and whose multiplicity is maximal among the page's font sizes. -/
theorem dominant_font_size_spec (text_blocks : List TextBlock)
    (hne : text_blocks ≠ []) :
    get_dominant_font_size [] = 12 ∧
    get_dominant_font_size text_blocks ∈
      text_blocks.map (fun b => b.font_size) ∧
    ∀ b ∈ text_blocks,
      (text_blocks.map (fun b => b.font_size)).count b.font_size ≤
        (text_blocks.map (fun b => b.font_size)).count
          (get_dominant_font_size text_blocks) := by
  cases text_blocks with
  | nil => exact absurd rfl hne
  | cons b0 bs =>
    have hfo : firstOccs ((b0 :: bs).map (fun b => b.font_size)) =
        b0.font_size :: firstOccs ((bs.map (fun b => b.font_size)).filter
          (fun y => decide (y ≠ b0.font_size))) := by
      rw [List.map_cons, firstOccs]
    have hmc : get_dominant_font_size (b0 :: bs) =
        pickMax ((b0 :: bs).map (fun b => b.font_size))
          (firstOccs ((bs.map (fun b => b.font_size)).filter
            (fun y => decide (y ≠ b0.font_size)))) b0.font_size := by
      show most_common ((b0 :: bs).map (fun b => b.font_size)) = _
      simp only [most_common, hfo]
    refine ⟨rfl, ?_, ?_⟩
    · rw [hmc]
      have hm := pickMax_mem ((b0 :: bs).map (fun b => b.font_size))
        (firstOccs ((bs.map (fun b => b.font_size)).filter
          (fun y => decide (y ≠ b0.font_size)))) b0.font_size
      rw [← hfo] at hm
      exact firstOccs_subset _ _ (le_refl _) hm
    · intro b hb
      rw [hmc]
      apply pickMax_count_ge
      rw [← hfo]
      exact mem_firstOccs _ _ (le_refl _) _ (List.mem_map_of_mem _ hb)

/-- Three blocks with font sizes 10, 12 and 10: the dominant size is a
most frequent one (10). -/
def fontBlocks : List TextBlock :=
  [{ x0 := 0, y0 := 0, x1 := 10, y1 := 5, text := "a", font_size := 10,
     font_name := "f", font_weight := "normal", color := 0,
     is_bold := false, is_italic := false },
   { x0 := 0, y0 := 10, x1 := 10, y1 := 15, text := "b", font_size := 12,
     font_name := "f", font_weight := "normal", color := 0,
     is_bold := false, is_italic := false },
   { x0 := 0, y0 := 20, x1 := 10, y1 := 25, text := "c", font_size := 10,
     font_name := "f", font_weight := "normal", color := 0,
     is_bold := false, is_italic := false }]

/-- Claim C10 witness: the empty page defaults to 12 and on `fontBlocks`
the dominant size is one of the page's font sizes. -/
theorem dominant_font_size_witness :
    get_dominant_font_size [] = 12 ∧
    get_dominant_font_size fontBlocks ∈
      fontBlocks.map (fun b => b.font_size) :=
  ⟨(dominant_font_size_spec fontBlocks (by decide)).1,
    (dominant_font_size_spec fontBlocks (by decide)).2.1⟩
